import Mathlib

/-!
Verification of the ULEAM admission-allocation core (`src/testv2.ts`).

The embedding below translates the TypeScript classes into plain functional
Lean definitions:

* JavaScript `Map` objects (`AsignacionService.carreras`,
  `ICarrera.segmentos`) become insertion-ordered association lists with
  `get`/`set` operations (`catGet`/`catSet`, `segGet`/`segSet`); JS `Map`
  keys compare structurally, as these do.
* In-place mutation of `Aspirante` objects and of the capacity maps becomes
  explicit state passing: every operation returns the updated catalog and
  the updated candidate list.
* `Array.prototype.sort` with a consistent numeric comparator is (per the
  ECMAScript specification) a stable sort; it is modelled by the stable
  `List.insertionSort`, which is extensionally the unique stable sort for
  a given total preorder comparator.
* `Math.floor(cupos * 0.30)` and `Math.floor(cupos * 0.70)` are modelled by
  exact rational arithmetic: for a natural `cupos` they are `cupos * 3 / 10`
  and `cupos * 7 / 10` with natural division.
* Scores and capacity counters are `Int`, so nothing about signs is
  enforced by typing; the "capacity never negative" property is a theorem.
* `notificar` (the Observer fan-out) is modelled by the list of published
  notification payloads.
-/

/-- Upper-casing of a program name, as `name.toUpperCase()` does on the ASCII
names this program uses: character-wise ASCII upper-casing. (Lean's own
`String.toUpper` is the same `Char.toUpper` map, but written with an accessor
loop that the kernel cannot evaluate; this structural form evaluates.) -/
def mayusculas (s : String) : String :=
  ⟨s.data.map Char.toUpper⟩

/-- Status type `EstadoCupo = "PENDIENTE" | "ACEPTADO" | "RECHAZADO"`. -/
inductive EstadoCupo where
  | PENDIENTE
  | ACEPTADO
  | RECHAZADO
deriving DecidableEq, Repr

/-- Candidate record: class `Aspirante` (fields `_id`, `_nombre`, `_puntaje`,
`_carreraDeseada`, `grupos`, `carreraAsignada`, `grupoAsignadoFinal`,
`estadoCupo`). -/
structure Aspirante where
  id : Nat
  nombre : String
  puntaje : Int
  carreraDeseada : String
  grupos : List Nat
  carreraAsignada : Option String
  grupoAsignadoFinal : Option String
  estadoCupo : EstadoCupo
deriving DecidableEq, Repr

/-- Constructor of `Aspirante`: `this.grupos = tieneTitulo ? [7] : [...grupos, 7]`
followed by `this.grupos.sort((a, b) => a - b)` (a stable ascending numeric
sort), with the other fields initialised to `null` / `"PENDIENTE"`. -/
def Aspirante.nuevo (id : Nat) (nombre : String) (puntaje : Int)
    (carreraDeseada : String) (grupos : List Nat) (tieneTitulo : Bool := false) :
    Aspirante :=
  { id := id
    nombre := nombre
    puntaje := puntaje
    carreraDeseada := carreraDeseada
    grupos := List.insertionSort (· ≤ ·) (if tieneTitulo then [7] else grupos ++ [7])
    carreraAsignada := none
    grupoAsignadoFinal := none
    estadoCupo := .PENDIENTE }

/-- Program record: interface `ICarrera` with `nombre`, `minPuntaje` and the
mutable capacity map `segmentos : Map<number, number>`. -/
structure Carrera where
  nombre : String
  minPuntaje : Int
  segmentos : List (Nat × Int)
deriving DecidableEq, Repr

/-- Read of the capacity map: `carrera.segmentos.get(grupoId) || 0` (a missing
key reads as `0`; a stored `0` also reads as `0`). -/
def segGet (segs : List (Nat × Int)) (g : Nat) : Int :=
  match segs.find? (fun q => q.1 == g) with
  | some q => q.2
  | none => 0

/-- Write of the capacity map: `segmentos.set(g, v)` replaces the value of an
existing key in place, otherwise appends the entry (JS `Map` insertion
order). -/
def segSet : List (Nat × Int) → Nat → Int → List (Nat × Int)
  | [], g, v => [(g, v)]
  | q :: rest, g, v =>
      if q.1 = g then (g, v) :: rest else q :: segSet rest g v

/-- `CupoValidatorAdapter.puedeAcceder`: remaining capacity of the category is
strictly positive. -/
def puedeAcceder (carrera : Carrera) (grupoId : Nat) : Bool :=
  decide (0 < segGet carrera.segmentos grupoId)

/-- Catalog of programs: `AsignacionService.carreras : Map<string, ICarrera>`. -/
abbrev Catalogo := List (String × Carrera)

/-- Catalog read: `this.carreras.get(key)` with structural string keys. -/
def catGet (cat : Catalogo) (k : String) : Option Carrera :=
  (cat.find? (fun p => p.1 == k)).map Prod.snd

/-- Catalog write: `this.carreras.set(key, carrera)`. -/
def catSet : Catalogo → String → Carrera → Catalogo
  | [], k, c => [(k, c)]
  | p :: rest, k, c =>
      if p.1 = k then (k, c) :: rest else p :: catSet rest k c

/-- `AsignacionService.configurarCarrera`: stores, under the upper-cased name,
a program whose capacity map has exactly the two entries
`3 ↦ Math.floor(cupos * 0.30)` and `7 ↦ Math.floor(cupos * 0.70)`
(exact arithmetic: `cupos * 3 / 10` and `cupos * 7 / 10`). The default of the
optional parameter `min` is `70`. -/
def configurarCarrera (carreras : Catalogo) (nombre : String) (cupos : Nat)
    (min : Int := 70) : Catalogo :=
  catSet carreras (mayusculas nombre)
    { nombre := nombre
      minPuntaje := min
      segmentos := segSet (segSet [] 3 ((cupos * 3 / 10 : Nat) : Int))
                          7 ((cupos * 7 / 10 : Nat) : Int) }

/-- Constructor of `AsignacionService`: configures `MEDICINA` (10 seats,
minimum 90) and `INGENIERIA` (15 seats, minimum 80). -/
def servicioInicial : Catalogo :=
  configurarCarrera (configurarCarrera [] "MEDICINA" 10 90) "INGENIERIA" 15 80

/-- Category loop of `ejecutarAsignacionAutomatica`: `for (const grupoId of
asp.grupos)`, first category with `puedeAcceder` gets
`segmentos.set(grupoId, actual - 1)` and the loop breaks; returns the winning
category and the updated program, or `none` when no category has capacity. -/
def intentarGrupos (carrera : Carrera) : List Nat → Option (Nat × Carrera)
  | [] => none
  | g :: rest =>
      if puedeAcceder carrera g then
        some (g, { carrera with
                    segmentos := segSet carrera.segmentos g
                                   (segGet carrera.segmentos g - 1) })
      else
        intentarGrupos carrera rest

/-- Body of the `forEach` in `ejecutarAsignacionAutomatica` for one candidate:
lookup of the desired program (upper-cased), rejection on a missing program or
an insufficient score, otherwise the category loop, acceptance bookkeeping on
success, and the final `if (asp.estadoCupo === "PENDIENTE") RECHAZADO`. -/
def procesarAspirante (carreras : Catalogo) (asp : Aspirante) :
    Catalogo × Aspirante :=
  match catGet carreras (mayusculas asp.carreraDeseada) with
  | none => (carreras, { asp with estadoCupo := .RECHAZADO })
  | some carrera =>
      if asp.puntaje < carrera.minPuntaje then
        (carreras, { asp with estadoCupo := .RECHAZADO })
      else
        match intentarGrupos carrera asp.grupos with
        | some (g, carrera') =>
            (catSet carreras (mayusculas asp.carreraDeseada) carrera',
             { asp with
                estadoCupo := .ACEPTADO
                carreraAsignada := some carrera.nombre
                grupoAsignadoFinal := some ("Segmento-" ++ toString g) })
        | none =>
            (carreras,
             if asp.estadoCupo = .PENDIENTE then
               { asp with estadoCupo := .RECHAZADO }
             else asp)

/-- Sequential processing of the ranked candidate list, threading the catalog
through the `forEach`; candidates are tagged with their registration index. -/
def procesarLista : Catalogo → List (Nat × Aspirante) →
    Catalogo × List (Nat × Aspirante)
  | carreras, [] => (carreras, [])
  | carreras, (i, a) :: rest =>
      let r := procesarAspirante carreras a
      let s := procesarLista r.1 rest
      (s.1, (i, r.2) :: s.2)

/-- Comparator of the ranking sort `(a, b) => b.puntaje - a.puntaje` on
index-tagged candidates: descending by score. -/
def rankLE (p q : Nat × Aspirante) : Prop :=
  q.2.puntaje ≤ p.2.puntaje

instance : DecidableRel rankLE :=
  fun p q => Int.decLe q.2.puntaje p.2.puntaje

instance : IsTotal (Nat × Aspirante) rankLE :=
  ⟨fun p q => Int.le_total q.2.puntaje p.2.puntaje⟩

instance : IsTrans (Nat × Aspirante) rankLE :=
  ⟨fun _ _ _ h1 h2 => le_trans h2 h1⟩

/-- Comparator used to read the processed candidates back in registration
order (the TypeScript code mutates the registry objects in place, so the
observable registry keeps its original order). -/
def idxLE (p q : Nat × Aspirante) : Prop :=
  p.1 ≤ q.1

instance : DecidableRel idxLE :=
  fun p q => Nat.decLe p.1 q.1

instance : IsTotal (Nat × Aspirante) idxLE :=
  ⟨fun p q => Nat.le_total p.1 q.1⟩

instance : IsTrans (Nat × Aspirante) idxLE :=
  ⟨fun _ _ _ h1 h2 => le_trans h1 h2⟩

/-- Ranking of `ejecutarAsignacionAutomatica`:
`[...aspirantes].sort((a, b) => b.puntaje - a.puntaje)`, a stable descending
sort, applied to the registration-indexed candidate list. -/
def ranking (aspirantes : List Aspirante) : List (Nat × Aspirante) :=
  List.insertionSort rankLE aspirantes.enum

/-- `AsignacionService.ejecutarAsignacionAutomatica`: sorts the candidates by
descending score (stably), processes them in that order against the catalog,
and returns the updated catalog together with the registry in its original
order (the indices restore the in-place mutation view). -/
def ejecutarAsignacionAutomatica (carreras : Catalogo)
    (aspirantes : List Aspirante) : Catalogo × List Aspirante :=
  let r := procesarLista carreras (ranking aspirantes)
  (r.1, (List.insertionSort idxLE r.2).map Prod.snd)

/-- Payload of one `notificar` publication (candidate name, status after the
change, detail text). -/
structure Notificacion where
  nombre : String
  estado : EstadoCupo
  detalle : String
deriving DecidableEq, Repr

/-- Observable outcome of `modificarManualmente`: the catalog, the registry,
the returned message and the published notifications. -/
structure ResultadoManual where
  carreras : Catalogo
  repo : List Aspirante
  mensaje : String
  notificaciones : List Notificacion
deriving DecidableEq, Repr

/-- In-place update of the first registry entry with the given id (the object
found by `repo.obtenerTodos().find(a => a.id === id)`). -/
def actualizarPrimero : List Aspirante → Nat → Aspirante → List Aspirante
  | [], _, _ => []
  | a :: rest, id, nuevo =>
      if a.id = id then nuevo :: rest else a :: actualizarPrimero rest id nuevo

/-- Found-candidate branch of `modificarManualmente`: when the new status is
`ACEPTADO` and the desired program exists, force-accepts with label
`"ADMIN_FORZADO"` and publishes a confirmation; otherwise assigns the status
directly (leaving the assignment fields as they were) and publishes a change
notification. -/
def modificarEncontrado (carreras : Catalogo) (repo : List Aspirante)
    (id : Nat) (nuevoEstado : EstadoCupo) (asp : Aspirante) : ResultadoManual :=
  match nuevoEstado, catGet carreras (mayusculas asp.carreraDeseada) with
  | .ACEPTADO, some carrera =>
      let asp' := { asp with
                      estadoCupo := .ACEPTADO
                      carreraAsignada := some carrera.nombre
                      grupoAsignadoFinal := some "ADMIN_FORZADO" }
      ⟨carreras, actualizarPrimero repo id asp', "Estado: ACEPTADO.",
       [⟨asp'.nombre, asp'.estadoCupo, "Asignación manual confirmada"⟩]⟩
  | _, _ =>
      let asp' := { asp with estadoCupo := nuevoEstado }
      ⟨carreras, actualizarPrimero repo id asp', "Estado actualizado.",
       [⟨asp'.nombre, asp'.estadoCupo, "Cambio manual realizado"⟩]⟩

/-- `AsignacionService.modificarManualmente`: candidate lookup by id
(`"ID no encontrado."` on a miss), then the two-way override of
`modificarEncontrado`. -/
def modificarManualmente (carreras : Catalogo) (repo : List Aspirante)
    (id : Nat) (nuevoEstado : EstadoCupo) : ResultadoManual :=
  match repo.find? (fun a => a.id == id) with
  | none => ⟨carreras, repo, "ID no encontrado.", []⟩
  | some asp => modificarEncontrado carreras repo id nuevoEstado asp

/-- Whole-system state: the service's catalog plus the singleton registry. -/
structure Sistema where
  carreras : Catalogo
  repo : List Aspirante
deriving DecidableEq, Repr

/-- One `ejecutarAsignacionAutomatica(repo.obtenerTodos())` call. -/
def pasoAutomatico (s : Sistema) : Sistema :=
  let r := ejecutarAsignacionAutomatica s.carreras s.repo
  ⟨r.1, r.2⟩

/-- One `modificarManualmente(id, nuevoEstado, repo)` call. -/
def pasoManual (id : Nat) (nuevoEstado : EstadoCupo) (s : Sistema) : Sistema :=
  let r := modificarManualmente s.carreras s.repo id nuevoEstado
  ⟨r.carreras, r.repo⟩

/-- States reachable by any sequence of automatic-allocation and manual-change
calls. -/
inductive Alcanzable : Sistema → Sistema → Prop
  | refl (s : Sistema) : Alcanzable s s
  | auto {s t : Sistema} : Alcanzable s t → Alcanzable s (pasoAutomatico t)
  | manual {s t : Sistema} (id : Nat) (e : EstadoCupo) :
      Alcanzable s t → Alcanzable s (pasoManual id e t)

/-- States reachable by automatic-allocation calls alone. -/
inductive AlcanzableAuto : Sistema → Sistema → Prop
  | refl (s : Sistema) : AlcanzableAuto s s
  | auto {s t : Sistema} : AlcanzableAuto s t → AlcanzableAuto s (pasoAutomatico t)

/-- Catalogs reachable from a catalog by running the per-candidate processing
step some number of times (the intermediate catalogs of one batch). -/
inductive Deriva : Catalogo → Catalogo → Prop
  | refl (cat : Catalogo) : Deriva cat cat
  | paso {cat cat' : Catalogo} (a : Aspirante) :
      Deriva cat cat' → Deriva cat (procesarAspirante cat' a).1

/-- Every remaining-capacity counter of every program is non-negative. -/
def CatNoNeg (cat : Catalogo) : Prop :=
  ∀ p ∈ cat, ∀ q ∈ p.2.segmentos, 0 ≤ q.2

instance (cat : Catalogo) : Decidable (CatNoNeg cat) :=
  inferInstanceAs (Decidable (∀ p ∈ cat, ∀ q ∈ p.2.segmentos, 0 ≤ q.2))

/-- Every capacity entry of every program sits under category code 3 or 7. -/
def CatKeys37 (cat : Catalogo) : Prop :=
  ∀ p ∈ cat, ∀ q ∈ p.2.segmentos, q.1 = 3 ∨ q.1 = 7

instance (cat : Catalogo) : Decidable (CatKeys37 cat) :=
  inferInstanceAs (Decidable (∀ p ∈ cat, ∀ q ∈ p.2.segmentos, q.1 = 3 ∨ q.1 = 7))

/-- Name and minimum score stored for a key (the capacity-independent part of
a catalog entry). -/
def perfil (cat : Catalogo) (k : String) : Option (String × Int) :=
  (catGet cat k).map (fun c => (c.nombre, c.minPuntaje))

/-- Two catalogs with the same keys, names and minimum scores (capacities may
differ). -/
def EstructuraIgual (cat cat' : Catalogo) : Prop :=
  ∀ k, perfil cat k = perfil cat' k

/-- The candidate's desired program exists in the catalog and its minimum
score is not above the candidate's score. -/
def aptoCat (cat : Catalogo) (a : Aspirante) : Bool :=
  match catGet cat (mayusculas a.carreraDeseada) with
  | some c => decide (c.minPuntaje ≤ a.puntaje)
  | none => false

/-- Invariant tying a candidate's status to its assignment fields under
automatic allocation: accepted candidates carry an assigned program and
qualify for their desired program; all others carry no assigned program. -/
def InvAsp (cat : Catalogo) (a : Aspirante) : Prop :=
  (a.estadoCupo = .ACEPTADO → a.carreraAsignada ≠ none ∧ aptoCat cat a = true) ∧
  (a.estadoCupo ≠ .ACEPTADO → a.carreraAsignada = none)

/-- Demonstration candidate (id 1, score 95, desires MEDICINA, group 3). -/
def aspiranteDemo : Aspirante :=
  Aspirante.nuevo 1 "Ana" 95 "MEDICINA" [3] false

/-- Demonstration system: freshly configured service and one pending
candidate. -/
def sistemaDemo : Sistema :=
  ⟨servicioInicial, [aspiranteDemo]⟩

/-- Demonstration system after a manual force-accept followed by a manual
rejection of the same candidate. -/
def sistemaDemo2 : Sistema :=
  pasoManual 1 .RECHAZADO (pasoManual 1 .ACEPTADO sistemaDemo)

/-- Demonstration candidate already accepted with an assigned program and
label (as the automatic batch leaves an accepted candidate). -/
def aspAceptado : Aspirante :=
  { id := 2
    nombre := "Bea"
    puntaje := 91
    carreraDeseada := "MEDICINA"
    grupos := [3, 7]
    carreraAsignada := some "MEDICINA"
    grupoAsignadoFinal := some "Segmento-3"
    estadoCupo := .ACEPTADO }

/-- Demonstration candidate whose desired program is not in the catalog. -/
def aspSinCarrera : Aspirante :=
  Aspirante.nuevo 3 "Cleo" 99 "FISICA" [2] false

/-- Demonstration candidate with a tied score, registered first. -/
def aspEmpateA : Aspirante :=
  Aspirante.nuevo 4 "Dan" 90 "MEDICINA" [3] false

/-- Demonstration candidate with the same score, registered second. -/
def aspEmpateB : Aspirante :=
  Aspirante.nuevo 5 "Eva" 90 "MEDICINA" [2] false

/-! ### Lemmas about the map operations -/

theorem mem_segSet {s : List (Nat × Int)} {g : Nat} {v : Int} {q : Nat × Int}
    (h : q ∈ segSet s g v) : q = (g, v) ∨ q ∈ s := by
  induction s with
  | nil => simpa [segSet] using h
  | cons p rest ih =>
      by_cases hp : p.1 = g
      · rw [segSet, if_pos hp] at h
        rcases List.mem_cons.mp h with h | h
        · exact Or.inl h
        · exact Or.inr (List.mem_cons_of_mem _ h)
      · rw [segSet, if_neg hp] at h
        rcases List.mem_cons.mp h with h | h
        · exact Or.inr (h ▸ List.mem_cons_self _ _)
        · rcases ih h with h' | h'
          · exact Or.inl h'
          · exact Or.inr (List.mem_cons_of_mem _ h')

theorem segGet_mem {s : List (Nat × Int)} {g : Nat} (h : segGet s g ≠ 0) :
    (g, segGet s g) ∈ s := by
  revert h
  unfold segGet
  cases hf : s.find? (fun q => q.1 == g) with
  | none => intro h; exact absurd rfl h
  | some q =>
      intro _
      have hq := List.mem_of_find?_eq_some hf
      have hk : q.1 = g := by simpa using List.find?_some hf
      cases q with
      | mk k v => cases hk; exact hq

theorem mem_catSet {cat : Catalogo} {k : String} {c : Carrera} {p : String × Carrera}
    (h : p ∈ catSet cat k c) : p = (k, c) ∨ p ∈ cat := by
  induction cat with
  | nil => simpa [catSet] using h
  | cons e rest ih =>
      by_cases he : e.1 = k
      · rw [catSet, if_pos he] at h
        rcases List.mem_cons.mp h with h | h
        · exact Or.inl h
        · exact Or.inr (List.mem_cons_of_mem _ h)
      · rw [catSet, if_neg he] at h
        rcases List.mem_cons.mp h with h | h
        · exact Or.inr (h ▸ List.mem_cons_self _ _)
        · rcases ih h with h' | h'
          · exact Or.inl h'
          · exact Or.inr (List.mem_cons_of_mem _ h')

theorem catGet_mem {cat : Catalogo} {k : String} {c : Carrera}
    (h : catGet cat k = some c) : (k, c) ∈ cat := by
  unfold catGet at h
  cases hf : cat.find? (fun p => p.1 == k) with
  | none => rw [hf] at h; simp at h
  | some p =>
      rw [hf] at h
      have hp := List.mem_of_find?_eq_some hf
      have hk : p.1 = k := by simpa using List.find?_some hf
      have hc : p.2 = c := by simpa using h
      cases p with
      | mk k' c' => cases hk; cases hc; exact hp

theorem catGet_catSet_self (cat : Catalogo) (k : String) (c : Carrera) :
    catGet (catSet cat k c) k = some c := by
  induction cat with
  | nil => simp [catSet, catGet]
  | cons p rest ih =>
      by_cases hp : p.1 = k
      · rw [catSet, if_pos hp]
        simp [catGet]
      · rw [catSet, if_neg hp]
        unfold catGet at ih ⊢
        rw [List.find?_cons_of_neg _ (by simpa using hp)]
        exact ih

theorem catGet_catSet_ne (cat : Catalogo) {k k' : String} (c : Carrera)
    (h : k' ≠ k) : catGet (catSet cat k c) k' = catGet cat k' := by
  induction cat with
  | nil =>
      simp [catSet, catGet, List.find?_cons_of_neg, show ¬(k == k') from by
        simpa using fun e => h e.symm]
  | cons p rest ih =>
      by_cases hp : p.1 = k
      · rw [catSet, if_pos hp]
        unfold catGet
        rw [List.find?_cons_of_neg _ (by simpa using fun e => h e.symm),
            List.find?_cons_of_neg _ (by simp [hp]; exact fun e => h e.symm)]
      · rw [catSet, if_neg hp]
        unfold catGet at ih ⊢
        by_cases hq : p.1 = k'
        · rw [List.find?_cons_of_pos _ (by simpa using hq),
              List.find?_cons_of_pos _ (by simpa using hq)]
        · rw [List.find?_cons_of_neg _ (by simpa using hq),
              List.find?_cons_of_neg _ (by simpa using hq)]
          exact ih

/-! ### Lemmas about the category loop -/

theorem intentarGrupos_some {carrera : Carrera} {l : List Nat} {g : Nat}
    {c' : Carrera} (h : intentarGrupos carrera l = some (g, c')) :
    g ∈ l ∧ puedeAcceder carrera g = true ∧
      c' = { carrera with segmentos := segSet carrera.segmentos g
                            (segGet carrera.segmentos g - 1) } := by
  induction l with
  | nil => simp [intentarGrupos] at h
  | cons x rest ih =>
      by_cases hx : puedeAcceder carrera x
      · rw [intentarGrupos, if_pos hx] at h
        obtain ⟨hg, hc⟩ : x = g ∧ _ = c' := by simpa using h
        subst hg
        exact ⟨List.mem_cons_self _ _, hx, hc.symm⟩
      · rw [intentarGrupos, if_neg hx] at h
        obtain ⟨h1, h2, h3⟩ := ih h
        exact ⟨List.mem_cons_of_mem _ h1, h2, h3⟩

theorem intentarGrupos_primero {carrera : Carrera} {l : List Nat}
    (hs : List.Sorted (· ≤ ·) l) {g : Nat} {c' : Carrera}
    (h : intentarGrupos carrera l = some (g, c')) :
    ∀ g' ∈ l, g' < g → puedeAcceder carrera g' = false := by
  induction l with
  | nil => simp [intentarGrupos] at h
  | cons x rest ih =>
      intro g' hg' hlt
      by_cases hx : puedeAcceder carrera x
      · rw [intentarGrupos, if_pos hx] at h
        have hxg : x = g := by
          simp only [Option.some.injEq, Prod.mk.injEq] at h
          exact h.1
        rcases List.mem_cons.mp hg' with h' | h'
        · subst h'
          exact absurd hlt (by omega)
        · have hle : x ≤ g' := List.rel_of_sorted_cons hs _ h'
          exact absurd hlt (by omega)
      · rw [intentarGrupos, if_neg hx] at h
        rcases List.mem_cons.mp hg' with h' | h'
        · subst h'
          simpa using hx
        · exact ih hs.of_cons h g' h' hlt

/-! ### Case analysis of the per-candidate step -/

theorem procesar_cases (cat : Catalogo) (a : Aspirante) :
    ((catGet cat (mayusculas a.carreraDeseada) = none ∨
        ∃ c, catGet cat (mayusculas a.carreraDeseada) = some c ∧
          a.puntaje < c.minPuntaje) ∧
      procesarAspirante cat a = (cat, { a with estadoCupo := .RECHAZADO })) ∨
    (∃ carrera g carrera',
        catGet cat (mayusculas a.carreraDeseada) = some carrera ∧
        carrera.minPuntaje ≤ a.puntaje ∧
        intentarGrupos carrera a.grupos = some (g, carrera') ∧
        procesarAspirante cat a =
          (catSet cat (mayusculas a.carreraDeseada) carrera',
           { a with estadoCupo := .ACEPTADO,
                    carreraAsignada := some carrera.nombre,
                    grupoAsignadoFinal := some ("Segmento-" ++ toString g) })) ∨
    (∃ carrera,
        catGet cat (mayusculas a.carreraDeseada) = some carrera ∧
        carrera.minPuntaje ≤ a.puntaje ∧
        intentarGrupos carrera a.grupos = none ∧
        ((a.estadoCupo = .PENDIENTE ∧
            procesarAspirante cat a = (cat, { a with estadoCupo := .RECHAZADO })) ∨
         (a.estadoCupo ≠ .PENDIENTE ∧ procesarAspirante cat a = (cat, a)))) := by
  unfold procesarAspirante
  cases hc : catGet cat (mayusculas a.carreraDeseada) with
  | none => exact Or.inl ⟨Or.inl rfl, rfl⟩
  | some carrera =>
      by_cases hp : a.puntaje < carrera.minPuntaje
      · refine Or.inl ⟨Or.inr ⟨carrera, rfl, hp⟩, ?_⟩
        simp only [if_pos hp]
      · cases hi : intentarGrupos carrera a.grupos with
        | some gc =>
            obtain ⟨g, carrera'⟩ := gc
            refine Or.inr (Or.inl ⟨carrera, g, carrera', rfl, not_lt.mp hp, hi, ?_⟩)
            simp only [if_neg hp, hi]
        | none =>
            by_cases he : a.estadoCupo = .PENDIENTE
            · refine Or.inr (Or.inr ⟨carrera, rfl, not_lt.mp hp, hi, Or.inl ⟨he, ?_⟩⟩)
              simp only [if_neg hp, hi, if_pos he]
            · refine Or.inr (Or.inr ⟨carrera, rfl, not_lt.mp hp, hi, Or.inr ⟨he, ?_⟩⟩)
              simp only [if_neg hp, hi, if_neg he]

/-- Catalog effect of one per-candidate step: either unchanged, or exactly one
existing program gets one strictly positive counter decremented by one. -/
theorem procesar_fst_cases (cat : Catalogo) (a : Aspirante) :
    (procesarAspirante cat a).1 = cat ∨
    ∃ carrera g,
      catGet cat (mayusculas a.carreraDeseada) = some carrera ∧
      0 < segGet carrera.segmentos g ∧
      (procesarAspirante cat a).1 =
        catSet cat (mayusculas a.carreraDeseada)
          { carrera with segmentos := segSet carrera.segmentos g
                           (segGet carrera.segmentos g - 1) } := by
  rcases procesar_cases cat a with ⟨-, h⟩ | ⟨carrera, g, carrera', hc, -, hi, h⟩ |
    ⟨carrera, hc, -, -, ⟨-, h⟩ | ⟨-, h⟩⟩
  · exact Or.inl (by rw [h])
  · obtain ⟨-, hacc, hcar⟩ := intentarGrupos_some hi
    refine Or.inr ⟨carrera, g, hc, by simpa [puedeAcceder] using hacc, ?_⟩
    rw [h, hcar]
  · exact Or.inl (by rw [h])
  · exact Or.inl (by rw [h])

/-- Immutable candidate fields are preserved by the per-candidate step. -/
theorem procesar_campos (cat : Catalogo) (a : Aspirante) :
    ((procesarAspirante cat a).2).id = a.id ∧
    ((procesarAspirante cat a).2).nombre = a.nombre ∧
    ((procesarAspirante cat a).2).puntaje = a.puntaje ∧
    ((procesarAspirante cat a).2).carreraDeseada = a.carreraDeseada ∧
    ((procesarAspirante cat a).2).grupos = a.grupos := by
  rcases procesar_cases cat a with ⟨-, h⟩ | ⟨c, g, c', -, -, -, h⟩ |
      ⟨c, -, -, -, ⟨-, h⟩ | ⟨-, h⟩⟩ <;>
    rw [h] <;> exact ⟨rfl, rfl, rfl, rfl, rfl⟩

/-! ### Preservation of the catalog invariants -/

theorem catNoNeg_procesar {cat : Catalogo} (h : CatNoNeg cat) (a : Aspirante) :
    CatNoNeg (procesarAspirante cat a).1 := by
  rcases procesar_fst_cases cat a with heq | ⟨carrera, g, hc, hpos, heq⟩
  · rw [heq]; exact h
  · rw [heq]
    intro p hp q hq
    rcases mem_catSet hp with rfl | hp'
    · rcases mem_segSet hq with rfl | hq'
      · show (0 : Int) ≤ segGet carrera.segmentos g - 1
        omega
      · exact h _ (catGet_mem hc) _ hq'
    · exact h _ hp' _ hq

theorem catKeys37_procesar {cat : Catalogo} (h : CatKeys37 cat) (a : Aspirante) :
    CatKeys37 (procesarAspirante cat a).1 := by
  rcases procesar_fst_cases cat a with heq | ⟨carrera, g, hc, hpos, heq⟩
  · rw [heq]; exact h
  · rw [heq]
    intro p hp q hq
    rcases mem_catSet hp with rfl | hp'
    · rcases mem_segSet hq with rfl | hq'
      · have hg : (g, segGet carrera.segmentos g) ∈ carrera.segmentos :=
          segGet_mem (by omega)
        have h37 := h _ (catGet_mem hc) _ hg
        simpa using h37
      · exact h _ (catGet_mem hc) _ hq'
    · exact h _ hp' _ hq

theorem estructura_procesar (cat : Catalogo) (a : Aspirante) :
    EstructuraIgual cat (procesarAspirante cat a).1 := by
  rcases procesar_fst_cases cat a with heq | ⟨carrera, g, hc, hpos, heq⟩
  · rw [heq]; intro k; rfl
  · rw [heq]; intro k
    by_cases hk : k = mayusculas a.carreraDeseada
    · subst hk
      unfold perfil
      rw [catGet_catSet_self, hc]
      rfl
    · unfold perfil
      rw [catGet_catSet_ne _ _ hk]

/-! ### Catalog derivations (intermediate catalogs of one batch) -/

theorem deriva_trans {a b c : Catalogo} (h1 : Deriva a b) (h2 : Deriva b c) :
    Deriva a c := by
  induction h2 with
  | refl => exact h1
  | paso x _ ih => exact Deriva.paso x ih

theorem deriva_catNoNeg {cat cat' : Catalogo} (h : Deriva cat cat')
    (h0 : CatNoNeg cat) : CatNoNeg cat' := by
  induction h with
  | refl => exact h0
  | paso a _ ih => exact catNoNeg_procesar ih a

theorem deriva_catKeys37 {cat cat' : Catalogo} (h : Deriva cat cat')
    (h0 : CatKeys37 cat) : CatKeys37 cat' := by
  induction h with
  | refl => exact h0
  | paso a _ ih => exact catKeys37_procesar ih a

theorem deriva_estructura {cat cat' : Catalogo} (h : Deriva cat cat') :
    EstructuraIgual cat cat' := by
  induction h with
  | refl => intro k; rfl
  | paso a _ ih => exact fun k => (ih k).trans (estructura_procesar _ a k)

/-! ### The batch fold -/

theorem procesarLista_deriva (cat : Catalogo) (l : List (Nat × Aspirante)) :
    Deriva cat (procesarLista cat l).1 := by
  induction l generalizing cat with
  | nil => exact Deriva.refl cat
  | cons q rest ih =>
      obtain ⟨i, a⟩ := q
      show Deriva cat (procesarLista (procesarAspirante cat a).1 rest).1
      exact deriva_trans (Deriva.paso a (Deriva.refl cat))
        (ih (procesarAspirante cat a).1)

theorem procesarLista_mem {cat : Catalogo} {l : List (Nat × Aspirante)}
    {p : Nat × Aspirante} (h : p ∈ (procesarLista cat l).2) :
    ∃ a cat₁, (p.1, a) ∈ l ∧ Deriva cat cat₁ ∧
      p.2 = (procesarAspirante cat₁ a).2 := by
  induction l generalizing cat with
  | nil => simp [procesarLista] at h
  | cons q rest ih =>
      obtain ⟨i, a⟩ := q
      have h' : p = (i, (procesarAspirante cat a).2) ∨
          p ∈ (procesarLista (procesarAspirante cat a).1 rest).2 := by
        simpa [procesarLista] using h
      rcases h' with rfl | h'
      · exact ⟨a, cat, List.mem_cons_self _ _, Deriva.refl cat, rfl⟩
      · obtain ⟨b, cat₁, hmem, hd, heq⟩ := ih h'
        exact ⟨b, cat₁, List.mem_cons_of_mem _ hmem,
          deriva_trans (Deriva.paso a (Deriva.refl cat)) hd, heq⟩

/-! ### The status/assignment invariant under automatic allocation -/

theorem aptoCat_congr {cat cat' : Catalogo} (h : EstructuraIgual cat cat')
    (a : Aspirante) : aptoCat cat a = aptoCat cat' a := by
  unfold aptoCat
  have hk := h (mayusculas a.carreraDeseada)
  unfold perfil at hk
  cases h1 : catGet cat (mayusculas a.carreraDeseada) with
  | none =>
      cases h2 : catGet cat' (mayusculas a.carreraDeseada) with
      | none => rfl
      | some c => rw [h1, h2] at hk; simp at hk
  | some c =>
      cases h2 : catGet cat' (mayusculas a.carreraDeseada) with
      | none => rw [h1, h2] at hk; simp at hk
      | some c' =>
          rw [h1, h2] at hk
          simp only [Option.map_some', Option.some.injEq, Prod.mk.injEq] at hk
          show decide (c.minPuntaje ≤ a.puntaje) = decide (c'.minPuntaje ≤ a.puntaje)
          rw [hk.2]

theorem invAsp_congr {cat cat' : Catalogo} (h : EstructuraIgual cat cat')
    {a : Aspirante} (hi : InvAsp cat a) : InvAsp cat' a := by
  obtain ⟨h1, h2⟩ := hi
  exact ⟨fun he => ⟨(h1 he).1, (aptoCat_congr h a) ▸ (h1 he).2⟩, h2⟩

theorem invAsp_procesar {cat : Catalogo} {a : Aspirante} (h : InvAsp cat a) :
    InvAsp cat ((procesarAspirante cat a).2) := by
  rcases procesar_cases cat a with ⟨hcond, heq⟩ |
      ⟨carrera, g, carrera', hc, hm, hi, heq⟩ |
      ⟨carrera, hc, hm, hi, ⟨hpend, heq⟩ | ⟨hpend, heq⟩⟩
  · rw [heq]
    constructor
    · intro he; exact absurd he (by simp)
    · intro _
      have hna : a.estadoCupo ≠ .ACEPTADO := by
        intro hacc
        have h1 := (h.1 hacc).2
        unfold aptoCat at h1
        rcases hcond with hn | ⟨c, hcs, hlt⟩
        · rw [hn] at h1; simp at h1
        · rw [hcs] at h1
          simp only [decide_eq_true_eq] at h1
          omega
      exact h.2 hna
  · rw [heq]
    constructor
    · intro _
      refine ⟨by simp, ?_⟩
      show aptoCat cat a = true
      unfold aptoCat
      rw [hc]
      simpa using hm
    · intro he; exact absurd rfl he
  · rw [heq]
    constructor
    · intro he; exact absurd he (by simp)
    · intro _
      exact h.2 (by rw [hpend]; simp)
  · rw [heq]; exact h

theorem procesarLista_inv {cat : Catalogo} {l : List (Nat × Aspirante)}
    (h : ∀ p ∈ l, InvAsp cat p.2) :
    ∀ p ∈ (procesarLista cat l).2, InvAsp (procesarLista cat l).1 p.2 := by
  intro p hp
  obtain ⟨a, cat₁, hmem, hd, heq⟩ := procesarLista_mem hp
  have ha : InvAsp cat a := h _ hmem
  have ha₁ : InvAsp cat₁ a := invAsp_congr (deriva_estructura hd) ha
  have h2 : InvAsp cat₁ ((procesarAspirante cat₁ a).2) := invAsp_procesar ha₁
  have hd2 : Deriva cat (procesarLista cat l).1 := procesarLista_deriva cat l
  have e1 : EstructuraIgual cat₁ (procesarLista cat l).1 :=
    fun k => ((deriva_estructura hd) k).symm.trans ((deriva_estructura hd2) k)
  rw [heq]
  exact invAsp_congr e1 h2

/-! ### Membership facts about the batch output -/

theorem ranking_mem {aspirantes : List Aspirante} {p : Nat × Aspirante}
    (h : p ∈ ranking aspirantes) : p.2 ∈ aspirantes := by
  have h1 : p ∈ aspirantes.enum :=
    ((List.perm_insertionSort rankLE aspirantes.enum).mem_iff).mp h
  exact List.snd_mem_of_mem_enum h1

theorem ejecutar_mem {cat : Catalogo} {aspirantes : List Aspirante}
    {a' : Aspirante} (h : a' ∈ (ejecutarAsignacionAutomatica cat aspirantes).2) :
    ∃ i, (i, a') ∈ (procesarLista cat (ranking aspirantes)).2 := by
  unfold ejecutarAsignacionAutomatica at h
  obtain ⟨p, hp, hpe⟩ := List.mem_map.mp h
  refine ⟨p.1, ?_⟩
  have hp' : p ∈ (procesarLista cat (ranking aspirantes)).2 :=
    ((List.perm_insertionSort idxLE _).mem_iff).mp hp
  have : p = (p.1, a') := by
    cases p with
    | mk i b => cases hpe; rfl
  rw [← this]
  exact hp'

/-! ### The manual-change operation -/

theorem modificar_carreras (cat : Catalogo) (repo : List Aspirante) (id : Nat)
    (e : EstadoCupo) : (modificarManualmente cat repo id e).carreras = cat := by
  unfold modificarManualmente
  cases hf : repo.find? (fun a => a.id == id) with
  | none => rfl
  | some asp =>
      show (modificarEncontrado cat repo id e asp).carreras = cat
      unfold modificarEncontrado
      cases e <;> cases hc : catGet cat (mayusculas asp.carreraDeseada) <;> rfl

theorem modificar_no_aceptado {cat : Catalogo} {repo : List Aspirante}
    {id : Nat} {e : EstadoCupo} {asp : Aspirante} (he : e ≠ .ACEPTADO)
    (hf : repo.find? (fun a => a.id == id) = some asp) :
    modificarManualmente cat repo id e =
      ⟨cat, actualizarPrimero repo id { asp with estadoCupo := e },
       "Estado actualizado.",
       [⟨asp.nombre, e, "Cambio manual realizado"⟩]⟩ := by
  unfold modificarManualmente
  rw [hf]
  show modificarEncontrado cat repo id e asp = _
  unfold modificarEncontrado
  cases e with
  | ACEPTADO => exact absurd rfl he
  | PENDIENTE => cases hc : catGet cat (mayusculas asp.carreraDeseada) <;> rfl
  | RECHAZADO => cases hc : catGet cat (mayusculas asp.carreraDeseada) <;> rfl

theorem pasoManual_carreras (id : Nat) (e : EstadoCupo) (s : Sistema) :
    (pasoManual id e s).carreras = s.carreras :=
  modificar_carreras s.carreras s.repo id e

/-! ### Reachability preservation -/

theorem alcanzable_catNoNeg {s s' : Sistema} (h : Alcanzable s s')
    (h0 : CatNoNeg s.carreras) : CatNoNeg s'.carreras := by
  induction h with
  | refl => exact h0
  | auto _ ih => exact deriva_catNoNeg (procesarLista_deriva _ _) ih
  | manual id e _ ih => exact (pasoManual_carreras id e _).symm ▸ ih

theorem alcanzable_catKeys37 {s s' : Sistema} (h : Alcanzable s s')
    (h0 : CatKeys37 s.carreras) : CatKeys37 s'.carreras := by
  induction h with
  | refl => exact h0
  | auto _ ih => exact deriva_catKeys37 (procesarLista_deriva _ _) ih
  | manual id e _ ih => exact (pasoManual_carreras id e _).symm ▸ ih

theorem pasoAuto_inv {t : Sistema} (h : ∀ a ∈ t.repo, InvAsp t.carreras a) :
    ∀ a ∈ (pasoAutomatico t).repo, InvAsp (pasoAutomatico t).carreras a := by
  intro a ha
  obtain ⟨i, hp⟩ := ejecutar_mem ha
  have hin : ∀ p ∈ ranking t.repo, InvAsp t.carreras p.2 :=
    fun p hp' => h _ (ranking_mem hp')
  exact procesarLista_inv hin (i, a) hp

theorem alcanzableAuto_inv {s s' : Sistema} (h : AlcanzableAuto s s')
    (h0 : ∀ a ∈ s.repo, InvAsp s.carreras a) :
    ∀ a ∈ s'.repo, InvAsp s'.carreras a := by
  induction h with
  | refl => exact h0
  | auto _ ih => exact pasoAuto_inv ih

/-! ### Positional and order helpers -/

theorem pair_sublist_of_getElem? {α : Type} {x y : α} :
    ∀ (l : List α) (i j : Nat), i < j → l[i]? = some x → l[j]? = some y →
      List.Sublist [x, y] l
  | [], _, _, _, hx, _ => by simp at hx
  | a :: t, 0, j, hij, hx, hy => by
      obtain ⟨j', rfl⟩ : ∃ j', j = j' + 1 := ⟨j - 1, by omega⟩
      have hxa : a = x := by simpa using hx
      have hy' : t[j']? = some y := by simpa using hy
      subst hxa
      exact List.Sublist.cons₂ _ (List.singleton_sublist.mpr (List.getElem?_mem hy'))
  | a :: t, i + 1, j, hij, hx, hy => by
      obtain ⟨j', rfl⟩ : ∃ j', j = j' + 1 := ⟨j - 1, by omega⟩
      have hx' : t[i]? = some x := by simpa using hx
      have hy' : t[j']? = some y := by simpa using hy
      exact List.Sublist.cons _ (pair_sublist_of_getElem? t i j' (by omega) hx' hy')

theorem getLast?_sorted_max : ∀ {l : List Nat}, List.Sorted (· ≤ ·) l →
    ∀ {x : Nat}, x ∈ l → (∀ y ∈ l, y ≤ x) → l.getLast? = some x
  | [], _, _, hx, _ => absurd hx (List.not_mem_nil _)
  | [a], _, x, hx, _ => by
      have : x = a := by simpa using hx
      simp [this]
  | a :: b :: t, hs, x, hx, hmax => by
      rw [List.getLast?_cons_cons]
      have hxbt : x ∈ b :: t := by
        rcases List.mem_cons.mp hx with rfl | h
        · have hab : x ≤ b := List.rel_of_sorted_cons hs b (List.mem_cons_self _ _)
          have hba : b ≤ x :=
            hmax b (List.mem_cons_of_mem _ (List.mem_cons_self _ _))
          have hxb : x = b := le_antisymm hab hba
          exact hxb ▸ List.mem_cons_self _ _
        · exact h
      exact getLast?_sorted_max hs.of_cons hxbt
        (fun y hy => hmax y (List.mem_cons_of_mem _ hy))

/-! ### Acceptance characterization -/

theorem procesar_acepta {cat : Catalogo} {a : Aspirante}
    (ha : a.estadoCupo ≠ .ACEPTADO)
    (hacc : ((procesarAspirante cat a).2).estadoCupo = .ACEPTADO) :
    ∃ carrera g,
      catGet cat (mayusculas a.carreraDeseada) = some carrera ∧
      carrera.minPuntaje ≤ a.puntaje ∧
      puedeAcceder carrera g = true ∧
      ((procesarAspirante cat a).2).grupoAsignadoFinal =
        some ("Segmento-" ++ toString g) := by
  rcases procesar_cases cat a with ⟨-, heq⟩ | ⟨carrera, g, carrera', hc, hm, hi, heq⟩ |
      ⟨carrera, hc, hm, hi, ⟨-, heq⟩ | ⟨-, heq⟩⟩
  · rw [heq] at hacc; simp at hacc
  · obtain ⟨-, hp, -⟩ := intentarGrupos_some hi
    exact ⟨carrera, g, hc, hm, hp, by rw [heq]⟩
  · rw [heq] at hacc; simp at hacc
  · rw [heq] at hacc; exact absurd hacc ha

theorem perfil_pull {cat cat₁ : Catalogo} (h : EstructuraIgual cat cat₁)
    {k : String} {c₁ : Carrera} (hc : catGet cat₁ k = some c₁) :
    ∃ c, catGet cat k = some c ∧ c.minPuntaje = c₁.minPuntaje ∧
      c.nombre = c₁.nombre := by
  have hk := h k
  unfold perfil at hk
  rw [hc] at hk
  cases h2 : catGet cat k with
  | none => rw [h2] at hk; simp at hk
  | some c =>
      rw [h2] at hk
      simp only [Option.map_some', Option.some.injEq, Prod.mk.injEq] at hk
      exact ⟨c, rfl, hk.2, hk.1⟩

/-! ### The claims -/

/-- C1: remaining-capacity counters are never negative. Configuration with any
seat total produces non-negative capacities, and every sequence of
`ejecutarAsignacionAutomatica` and `modificarManualmente` calls preserves
non-negativity of every entry of every program's `segmentos` map, because a
seat is decremented only when the checked remaining capacity is strictly
positive. -/
theorem spec_c1 :
    (∀ (cat : Catalogo) (nombre : String) (cupos : Nat) (min : Int),
        CatNoNeg cat → CatNoNeg (configurarCarrera cat nombre cupos min)) ∧
    (∀ s s', Alcanzable s s' → CatNoNeg s.carreras → CatNoNeg s'.carreras) := by
  constructor
  · intro cat nombre cupos min h p hp q hq
    rcases mem_catSet hp with rfl | hp'
    · rcases mem_segSet hq with rfl | hq'
      · exact Int.natCast_nonneg _
      · rcases mem_segSet hq' with rfl | hq''
        · exact Int.natCast_nonneg _
        · simp at hq''
    · exact h _ hp' _ hq
  · exact fun s s' h h0 => alcanzable_catNoNeg h h0

/-- Witness for C1: the freshly configured service has non-negative
capacities, and they remain non-negative after one automatic batch followed
by one manual force-accept. -/
theorem spec_c1_witness :
    CatNoNeg sistemaDemo.carreras ∧
    CatNoNeg (pasoManual 1 EstadoCupo.ACEPTADO (pasoAutomatico sistemaDemo)).carreras :=
  ⟨by decide,
   spec_c1.2 sistemaDemo _
     (Alcanzable.manual 1 .ACEPTADO (Alcanzable.auto (Alcanzable.refl _)))
     (by decide)⟩

/-- C2 counterexample: starting from a freshly configured service with one
Pending, unassigned candidate, a manual force-accept followed by a manual
rejection reaches a state whose candidate is RECHAZADO yet still carries the
assigned program, refuting "assigned-program is non-null if and only if
status = Accepted" over call sequences that include `modificarManualmente`. -/
theorem spec_c2_counterexample :
    Alcanzable sistemaDemo sistemaDemo2 ∧
    sistemaDemo2.repo.map (fun a => (a.estadoCupo, a.carreraAsignada)) =
      [(.RECHAZADO, some "MEDICINA")] :=
  ⟨Alcanzable.manual 1 .RECHAZADO
     (Alcanzable.manual 1 .ACEPTADO (Alcanzable.refl _)),
   by decide⟩

/-- C2 (amended): over any sequence of `ejecutarAsignacionAutomatica` calls
alone, starting from candidates that are Pending with null assignment, every
candidate's status is one of Pending, Accepted, Rejected, and the assigned
program is non-null exactly when the status is Accepted. (The manual-change
operation breaks both directions of the equivalence, as the counterexample
shows: the code does not clear the assignment on demotion and force-accepts
even when the desired program is missing.) -/
theorem spec_c2 (s s' : Sistema) (h : AlcanzableAuto s s')
    (h0 : ∀ a ∈ s.repo, a.estadoCupo = .PENDIENTE ∧ a.carreraAsignada = none) :
    ∀ a ∈ s'.repo,
      (a.estadoCupo = .PENDIENTE ∨ a.estadoCupo = .ACEPTADO ∨
        a.estadoCupo = .RECHAZADO) ∧
      (a.carreraAsignada ≠ none ↔ a.estadoCupo = .ACEPTADO) := by
  have hinv : ∀ a ∈ s'.repo, InvAsp s'.carreras a := by
    apply alcanzableAuto_inv h
    intro a ha
    obtain ⟨h1, h2⟩ := h0 a ha
    constructor
    · intro he
      rw [h1] at he
      exact absurd he (by simp)
    · intro _
      exact h2
  intro a ha
  obtain ⟨hA, hN⟩ := hinv a ha
  constructor
  · cases a.estadoCupo with
    | PENDIENTE => exact Or.inl rfl
    | ACEPTADO => exact Or.inr (Or.inl rfl)
    | RECHAZADO => exact Or.inr (Or.inr rfl)
  · constructor
    · intro hne
      by_contra hno
      exact hne (hN hno)
    · intro he
      exact (hA he).1

/-- Witness for C2: after one automatic batch on the demonstration system the
surviving candidate satisfies the assignment-status equivalence. -/
theorem spec_c2_witness :
    (((pasoAutomatico sistemaDemo).repo.getD 0 aspiranteDemo).carreraAsignada ≠ none ↔
      ((pasoAutomatico sistemaDemo).repo.getD 0 aspiranteDemo).estadoCupo =
        .ACEPTADO) := by
  have h := spec_c2 sistemaDemo (pasoAutomatico sistemaDemo)
    (AlcanzableAuto.auto (AlcanzableAuto.refl _)) (by decide)
  exact (h _ (by decide)).2

/-- C3: in the automatic batch, a candidate whose desired program is absent
from the catalog (case-insensitive lookup) or whose score is strictly below
the program's minimum is set to RECHAZADO with the catalog left untouched;
and, over a batch whose candidates all enter in a non-Accepted state, every
candidate that comes out ACEPTADO scores at least the minimum score of their
desired program, which does exist in the catalog. -/
theorem spec_c3 (cat : Catalogo) (aspirantes : List Aspirante) :
    (∀ asp : Aspirante,
        (catGet cat (mayusculas asp.carreraDeseada) = none ∨
          ∃ c, catGet cat (mayusculas asp.carreraDeseada) = some c ∧
            asp.puntaje < c.minPuntaje) →
        procesarAspirante cat asp = (cat, { asp with estadoCupo := .RECHAZADO })) ∧
    ((∀ a ∈ aspirantes, a.estadoCupo ≠ .ACEPTADO) →
      ∀ a' ∈ (ejecutarAsignacionAutomatica cat aspirantes).2,
        a'.estadoCupo = .ACEPTADO →
        ∃ c, catGet cat (mayusculas a'.carreraDeseada) = some c ∧
          c.minPuntaje ≤ a'.puntaje) := by
  constructor
  · intro asp hcond
    rcases procesar_cases cat asp with ⟨-, heq⟩ |
        ⟨carrera, g, carrera', hc, hm, -, -⟩ | ⟨carrera, hc, hm, -, -⟩
    · exact heq
    · rcases hcond with hn | ⟨c, hcs, hlt⟩
      · rw [hn] at hc
        exact absurd hc (by simp)
      · rw [hcs] at hc
        have hce : c = carrera := by simpa using hc
        subst hce
        omega
    · rcases hcond with hn | ⟨c, hcs, hlt⟩
      · rw [hn] at hc
        exact absurd hc (by simp)
      · rw [hcs] at hc
        have hce : c = carrera := by simpa using hc
        subst hce
        omega
  · intro hfresh a' ha' hacc
    obtain ⟨i, hp⟩ := ejecutar_mem ha'
    obtain ⟨a, cat₁, hmem, hd, heq⟩ := procesarLista_mem hp
    have hana : a.estadoCupo ≠ .ACEPTADO := hfresh a (ranking_mem hmem)
    have heq' : a' = (procesarAspirante cat₁ a).2 := heq
    obtain ⟨c₁, g, hc₁, hm₁, -, -⟩ := procesar_acepta hana (heq' ▸ hacc)
    obtain ⟨c, hcc, hmineq, -⟩ := perfil_pull (deriva_estructura hd) hc₁
    obtain ⟨-, -, hpunt, hcarr, -⟩ := procesar_campos cat₁ a
    refine ⟨c, ?_, ?_⟩
    · rw [heq', hcarr]
      exact hcc
    · rw [heq', hpunt, hmineq]
      exact hm₁

/-- Witness for C3: the demonstration candidate desiring the unconfigured
program FISICA is rejected and the catalog is unchanged. -/
theorem spec_c3_witness :
    procesarAspirante servicioInicial aspSinCarrera =
      (servicioInicial, { aspSinCarrera with estadoCupo := .RECHAZADO }) :=
  (spec_c3 servicioInicial []).1 aspSinCarrera (Or.inl (by decide))

/-- C4: the ranking of `ejecutarAsignacionAutomatica` is a stable descending
sort by score: it is sorted so that each later candidate's score is at most
each earlier one's, it is a permutation of the registration-indexed
candidates, and any two candidates with equal scores appear in the ranking in
their registration order (the earlier-registered one is processed, and hence
assigned, first). -/
theorem spec_c4 (aspirantes : List Aspirante) :
    List.Sorted rankLE (ranking aspirantes) ∧
    List.Perm (ranking aspirantes) aspirantes.enum ∧
    (∀ i j a b, i < j → aspirantes[i]? = some a → aspirantes[j]? = some b →
      a.puntaje = b.puntaje →
      List.Sublist [(i, a), (j, b)] (ranking aspirantes)) := by
  refine ⟨List.sorted_insertionSort rankLE aspirantes.enum,
    List.perm_insertionSort rankLE aspirantes.enum, ?_⟩
  intro i j a b hij ha hb hpt
  have hia : aspirantes.enum[i]? = some (i, a) := by
    rw [List.getElem?_enum, ha]
    rfl
  have hjb : aspirantes.enum[j]? = some (j, b) := by
    rw [List.getElem?_enum, hb]
    rfl
  have hsub : List.Sublist [(i, a), (j, b)] aspirantes.enum :=
    pair_sublist_of_getElem? _ i j hij hia hjb
  have hab : rankLE (i, a) (j, b) := le_of_eq hpt.symm
  exact List.pair_sublist_insertionSort hab hsub

/-- Witness for C4: two equal-scoring demonstration candidates keep their
registration order inside the ranking. -/
theorem spec_c4_witness :
    List.Sublist [(0, aspEmpateA), (1, aspEmpateB)]
      (ranking [aspEmpateA, aspEmpateB]) :=
  (spec_c4 [aspEmpateA, aspEmpateB]).2.2 0 1 aspEmpateA aspEmpateB
    (by decide) (by decide) (by decide) (by decide)

/-- C5 counterexample: demoting an accepted candidate to RECHAZADO leaves the
assigned program and label exactly as they were — they are not cleared to
null, contrary to the claim. -/
theorem spec_c5_counterexample :
    (modificarManualmente servicioInicial [aspAceptado] 2 .RECHAZADO).repo.map
        (fun a => (a.estadoCupo, a.carreraAsignada, a.grupoAsignadoFinal)) =
      [(.RECHAZADO, some "MEDICINA", some "Segmento-3")] := by
  decide

/-- C5 (amended): for an existing candidate id, any new status other than
ACEPTADO (Pending or Rejected, even from Accepted) is assigned directly while
both assignment fields are left unchanged — the code does not set them to
null; the message is "Estado actualizado." and one change notification is
published. -/
theorem spec_c5 (cat : Catalogo) (repo : List Aspirante) (id : Nat)
    (e : EstadoCupo) (asp : Aspirante) (he : e ≠ .ACEPTADO)
    (hf : repo.find? (fun a => a.id == id) = some asp) :
    modificarManualmente cat repo id e =
      ⟨cat, actualizarPrimero repo id { asp with estadoCupo := e },
       "Estado actualizado.",
       [⟨asp.nombre, e, "Cambio manual realizado"⟩]⟩ ∧
    ({ asp with estadoCupo := e }).carreraAsignada = asp.carreraAsignada ∧
    ({ asp with estadoCupo := e }).grupoAsignadoFinal = asp.grupoAsignadoFinal :=
  ⟨modificar_no_aceptado he hf, rfl, rfl⟩

/-- Witness for C5: resetting the accepted demonstration candidate to
PENDIENTE keeps its assignment fields. -/
theorem spec_c5_witness :
    modificarManualmente servicioInicial [aspAceptado] 2 .PENDIENTE =
      ⟨servicioInicial,
       actualizarPrimero [aspAceptado] 2 { aspAceptado with estadoCupo := .PENDIENTE },
       "Estado actualizado.",
       [⟨aspAceptado.nombre, .PENDIENTE, "Cambio manual realizado"⟩]⟩ :=
  (spec_c5 servicioInicial [aspAceptado] 2 .PENDIENTE aspAceptado
    (by decide) (by decide)).1

/-- C6: a manual force-accept returns the catalog exactly unchanged (no
capacity counter is ever decremented on this path), and when the candidate's
desired program exists the candidate is stored with status ACEPTADO, the
program's name, and the sentinel label "ADMIN_FORZADO". -/
theorem spec_c6 (cat : Catalogo) (repo : List Aspirante) (id : Nat) :
    (modificarManualmente cat repo id .ACEPTADO).carreras = cat ∧
    (∀ asp carrera, repo.find? (fun a => a.id == id) = some asp →
      catGet cat (mayusculas asp.carreraDeseada) = some carrera →
      (modificarManualmente cat repo id .ACEPTADO).repo =
        actualizarPrimero repo id
          { asp with estadoCupo := .ACEPTADO,
                     carreraAsignada := some carrera.nombre,
                     grupoAsignadoFinal := some "ADMIN_FORZADO" }) := by
  refine ⟨modificar_carreras cat repo id .ACEPTADO, ?_⟩
  intro asp carrera hf hc
  unfold modificarManualmente
  rw [hf]
  show (modificarEncontrado cat repo id .ACEPTADO asp).repo = _
  unfold modificarEncontrado
  rw [hc]

/-- Witness for C6: force-accepting the pending demonstration candidate keeps
the catalog and relabels the candidate with the sentinel. -/
theorem spec_c6_witness :
    (modificarManualmente servicioInicial [aspiranteDemo] 1 .ACEPTADO).carreras =
      servicioInicial ∧
    (modificarManualmente servicioInicial [aspiranteDemo] 1 .ACEPTADO).repo =
      actualizarPrimero [aspiranteDemo] 1
        { aspiranteDemo with
            estadoCupo := .ACEPTADO
            carreraAsignada := some "MEDICINA"
            grupoAsignadoFinal := some "ADMIN_FORZADO" } :=
  ⟨(spec_c6 servicioInicial [aspiranteDemo] 1).1,
   (spec_c6 servicioInicial [aspiranteDemo] 1).2 aspiranteDemo
     { nombre := "MEDICINA", minPuntaje := 90, segmentos := [(3, 3), (7, 7)] }
     (by decide) (by decide)⟩

/-- C7: an unknown candidate id makes `modificarManualmente` return the
"ID no encontrado." result with the catalog and registry untouched and no
notification published. -/
theorem spec_c7 (cat : Catalogo) (repo : List Aspirante) (id : Nat)
    (e : EstadoCupo) (h : repo.find? (fun a => a.id == id) = none) :
    modificarManualmente cat repo id e = ⟨cat, repo, "ID no encontrado.", []⟩ := by
  unfold modificarManualmente
  rw [h]

/-- Witness for C7: id 99 is not registered; the call returns the not-found
message and changes nothing. -/
theorem spec_c7_witness :
    modificarManualmente servicioInicial [aspiranteDemo] 99 .ACEPTADO =
      ⟨servicioInicial, [aspiranteDemo], "ID no encontrado.", []⟩ :=
  spec_c7 servicioInicial [aspiranteDemo] 99 .ACEPTADO (by decide)

/-- C8 counterexample: constructing a candidate whose group list already
contains the general code 7 (with tieneTitulo false) appends a second 7, so
the resulting category list is not a set of unique codes. -/
theorem spec_c8_counterexample :
    (Aspirante.nuevo 9 "Rep" 50 "MEDICINA" [7] false).grupos = [7, 7] ∧
    ¬ (Aspirante.nuevo 9 "Rep" 50 "MEDICINA" [7] false).grupos.Nodup := by
  decide

/-- C8 (amended): provided the constructor's group-code list has no
duplicates and contains only codes below the general code 7 — as every call
site does — the constructed candidate's category list is sorted ascending,
duplicate-free, contains 7 as its last element (the last resort), is exactly
[7] when tieneTitulo is set, and the category loop only picks a category
after every smaller listed category has failed the capacity check. Without
that precondition the unconditionally appended 7 can duplicate an existing
code, as the counterexample shows. -/
theorem spec_c8 (id : Nat) (nombre : String) (puntaje : Int)
    (carreraDeseada : String) (grupos : List Nat) (tieneTitulo : Bool)
    (hnd : grupos.Nodup) (hlt : ∀ g ∈ grupos, g < 7) :
    List.Sorted (· ≤ ·)
      (Aspirante.nuevo id nombre puntaje carreraDeseada grupos tieneTitulo).grupos ∧
    (Aspirante.nuevo id nombre puntaje carreraDeseada grupos tieneTitulo).grupos.Nodup ∧
    7 ∈ (Aspirante.nuevo id nombre puntaje carreraDeseada grupos tieneTitulo).grupos ∧
    (Aspirante.nuevo id nombre puntaje carreraDeseada grupos
        tieneTitulo).grupos.getLast? = some 7 ∧
    (tieneTitulo = true →
      (Aspirante.nuevo id nombre puntaje carreraDeseada grupos tieneTitulo).grupos =
        [7]) ∧
    (∀ carrera g carrera',
      intentarGrupos carrera
          (Aspirante.nuevo id nombre puntaje carreraDeseada grupos
            tieneTitulo).grupos = some (g, carrera') →
      ∀ g' ∈ (Aspirante.nuevo id nombre puntaje carreraDeseada grupos
          tieneTitulo).grupos, g' < g → puedeAcceder carrera g' = false) := by
  have hg : (Aspirante.nuevo id nombre puntaje carreraDeseada grupos
      tieneTitulo).grupos =
      List.insertionSort (· ≤ ·) (if tieneTitulo then [7] else grupos ++ [7]) := rfl
  have hperm : List.Perm
      (List.insertionSort (· ≤ ·) (if tieneTitulo then [7] else grupos ++ [7]))
      (if tieneTitulo then [7] else grupos ++ [7]) :=
    List.perm_insertionSort _ _
  have hsorted : List.Sorted (· ≤ ·)
      (Aspirante.nuevo id nombre puntaje carreraDeseada grupos tieneTitulo).grupos := by
    rw [hg]
    exact List.sorted_insertionSort _ _
  have hnodup0 : (if tieneTitulo then [7] else grupos ++ [7]).Nodup := by
    cases tieneTitulo with
    | true => simp
    | false =>
        simp only [Bool.false_eq_true, if_false]
        refine List.nodup_append.mpr ⟨hnd, List.nodup_singleton _, ?_⟩
        intro g hgmem hgm7
        have hg7 : g = 7 := by simpa using hgm7
        have := hlt g hgmem
        omega
  have hnodup : (Aspirante.nuevo id nombre puntaje carreraDeseada grupos
      tieneTitulo).grupos.Nodup := by
    rw [hg]
    exact (hperm.nodup_iff).mpr hnodup0
  have hmem0 : 7 ∈ (if tieneTitulo then [7] else grupos ++ [7]) := by
    cases tieneTitulo <;> simp
  have hmem : 7 ∈ (Aspirante.nuevo id nombre puntaje carreraDeseada grupos
      tieneTitulo).grupos := by
    rw [hg]
    exact hperm.mem_iff.mpr hmem0
  have hbound : ∀ y ∈ (Aspirante.nuevo id nombre puntaje carreraDeseada grupos
      tieneTitulo).grupos, y ≤ 7 := by
    intro y hy
    rw [hg] at hy
    have hy0 : y ∈ (if tieneTitulo then [7] else grupos ++ [7]) :=
      hperm.mem_iff.mp hy
    cases tieneTitulo with
    | true =>
        have : y = 7 := by simpa using hy0
        omega
    | false =>
        simp only [Bool.false_eq_true, if_false, List.mem_append,
          List.mem_singleton] at hy0
        rcases hy0 with h | h
        · exact le_of_lt (hlt y h)
        · omega
  refine ⟨hsorted, hnodup, hmem, getLast?_sorted_max hsorted hmem hbound, ?_, ?_⟩
  · intro ht
    subst ht
    rfl
  · intro carrera g c' hi g' hg' hlt'
    exact intentarGrupos_primero hsorted hi g' hg' hlt'

/-- Witness for C8: a candidate built from distinct codes [2, 5] gets the
sorted duplicate-free list with 7 appended last. -/
theorem spec_c8_witness :
    List.Sorted (· ≤ ·) (Aspirante.nuevo 3 "Zoe" 80 "INGENIERIA" [2, 5] false).grupos ∧
    (Aspirante.nuevo 3 "Zoe" 80 "INGENIERIA" [2, 5] false).grupos.Nodup ∧
    7 ∈ (Aspirante.nuevo 3 "Zoe" 80 "INGENIERIA" [2, 5] false).grupos ∧
    (Aspirante.nuevo 3 "Zoe" 80 "INGENIERIA" [2, 5] false).grupos.getLast? = some 7 := by
  have h := spec_c8 3 "Zoe" 80 "INGENIERIA" [2, 5] false (by decide) (by decide)
  exact ⟨h.1, h.2.1, h.2.2.1, h.2.2.2.1⟩

/-- C9: configuration stores exactly two capacity entries — category 3 (merit)
with floor(0.30·total) and category 7 (general) with floor(0.70·total); in
particular 10 total seats yield 3 merit and 7 general seats, and 15 total
seats yield 4 merit and 10 general seats, 14 in total, one seat permanently
unallocated. -/
theorem spec_c9 :
    (∀ (cat : Catalogo) (nombre : String) (cupos : Nat) (min : Int),
      catGet (configurarCarrera cat nombre cupos min) (mayusculas nombre) =
        some { nombre := nombre, minPuntaje := min,
               segmentos := [(3, ((cupos * 3 / 10 : Nat) : Int)),
                             (7, ((cupos * 7 / 10 : Nat) : Int))] }) ∧
    catGet (configurarCarrera [] "MEDICINA" 10 90) "MEDICINA" =
      some { nombre := "MEDICINA", minPuntaje := 90,
             segmentos := [(3, 3), (7, 7)] } ∧
    catGet (configurarCarrera [] "INGENIERIA" 15 80) "INGENIERIA" =
      some { nombre := "INGENIERIA", minPuntaje := 80,
             segmentos := [(3, 4), (7, 10)] } ∧
    (15 : Nat) * 3 / 10 + 15 * 7 / 10 = 14 := by
  refine ⟨?_, by decide, by decide, by decide⟩
  intro cat nombre cupos min
  unfold configurarCarrera
  rw [catGet_catSet_self]
  rfl

/-- C10: only category codes 3 and 7 ever hold capacity. Reading any other
code of a catalog whose keys are all in {3, 7} yields 0 and fails
`puedeAcceder`; the keys-in-{3, 7} property holds for any configuration call,
holds for the initial service, and is preserved by every reachable state; and
a batch over fresh (non-accepted) candidates labels every accepted candidate
"Segmento-3" or "Segmento-7" — membership in groups 1, 2, 4, 5 or 6 never by
itself yields a seat. -/
theorem spec_c10 :
    (∀ (cat : Catalogo) (k : String) (c : Carrera) (g : Nat), CatKeys37 cat →
        catGet cat k = some c → g ≠ 3 → g ≠ 7 →
        segGet c.segmentos g = 0 ∧ puedeAcceder c g = false) ∧
    (∀ (cat : Catalogo) (nombre : String) (cupos : Nat) (min : Int),
        CatKeys37 cat → CatKeys37 (configurarCarrera cat nombre cupos min)) ∧
    CatKeys37 servicioInicial ∧
    (∀ s s', Alcanzable s s' → CatKeys37 s.carreras → CatKeys37 s'.carreras) ∧
    (∀ (cat : Catalogo) (aspirantes : List Aspirante), CatKeys37 cat →
        (∀ a ∈ aspirantes, a.estadoCupo ≠ .ACEPTADO) →
        ∀ a' ∈ (ejecutarAsignacionAutomatica cat aspirantes).2,
          a'.estadoCupo = .ACEPTADO →
          a'.grupoAsignadoFinal = some "Segmento-3" ∨
          a'.grupoAsignadoFinal = some "Segmento-7") := by
  refine ⟨?_, ?_, by decide, fun s s' h h0 => alcanzable_catKeys37 h h0, ?_⟩
  · intro cat k c g h37 hc h3 h7
    have hseg : segGet c.segmentos g = 0 := by
      by_contra hne
      have hmem := segGet_mem hne
      rcases h37 _ (catGet_mem hc) _ hmem with h | h
      · exact h3 (by simpa using h)
      · exact h7 (by simpa using h)
    refine ⟨hseg, ?_⟩
    unfold puedeAcceder
    rw [hseg]
    rfl
  · intro cat nombre cupos min h p hp q hq
    rcases mem_catSet hp with rfl | hp'
    · rcases mem_segSet hq with rfl | hq'
      · exact Or.inr rfl
      · rcases mem_segSet hq' with rfl | hq''
        · exact Or.inl rfl
        · simp at hq''
    · exact h _ hp' _ hq
  · intro cat aspirantes h37 hfresh a' ha' hacc
    obtain ⟨i, hp⟩ := ejecutar_mem ha'
    obtain ⟨a, cat₁, hmem, hd, heq⟩ := procesarLista_mem hp
    have hana : a.estadoCupo ≠ .ACEPTADO := hfresh a (ranking_mem hmem)
    have h37p : CatKeys37 cat₁ := deriva_catKeys37 hd h37
    have heq' : a' = (procesarAspirante cat₁ a).2 := heq
    obtain ⟨carrera, g, hc₁, -, hacceso, hlabel⟩ :=
      procesar_acepta hana (heq' ▸ hacc)
    have hg37 : g = 3 ∨ g = 7 := by
      have hpos : (0 : Int) < segGet carrera.segmentos g := by
        simpa [puedeAcceder] using hacceso
      have hmem' := segGet_mem (show segGet carrera.segmentos g ≠ 0 by omega)
      have h' := h37p _ (catGet_mem hc₁) _ hmem'
      simpa using h'
    rw [heq', hlabel]
    rcases hg37 with rfl | rfl
    · exact Or.inl (by decide)
    · exact Or.inr (by decide)

/-- Witness for C10: in the MEDICINA program of the initial service, category
code 5 reads capacity 0 and fails the capacity check. -/
theorem spec_c10_witness :
    segGet ([(3, (3 : Int)), (7, 7)]) 5 = 0 ∧
    puedeAcceder { nombre := "MEDICINA", minPuntaje := 90,
                   segmentos := [(3, 3), (7, 7)] } 5 = false :=
  spec_c10.1 servicioInicial "MEDICINA"
    { nombre := "MEDICINA", minPuntaje := 90, segmentos := [(3, 3), (7, 7)] } 5
    (by decide) (by decide) (by decide) (by decide)
